import Mathlib

/-!
Verification of the reda core transforms: a shallow embedding in Lean 4 of
`src/lib/reda/utils/fix_sign_with_K.py` and `src/lib/reda/importers/eit_fzj.py`,
together with theorems settling the specification's claims about them.

Tables are embedded as lists of rows; pandas column presence is tracked by
per-table Boolean flags; float arithmetic is idealised as exact arithmetic
over `ℚ` (and `ℝ` for the derived quantities `r`, `Vmn`, `rpha` that involve
square roots and `arctan2`); a raised Python exception becomes an
`Except.error` value.
-/

set_option maxHeartbeats 1000000

/-- `np.arctan2 y x`, idealised over the reals: the angle of the point
`(x, y)`, in `(-π, π]`, with `arctan2 0 0 = 0`.  `Complex.arg ⟨x, y⟩` has
exactly these values. -/
noncomputable def np_arctan2 (y x : ℚ) : ℝ := Complex.arg ⟨(x : ℝ), (y : ℝ)⟩

/-! ## Embedding of `fix_sign_with_K` (src/lib/reda/utils/fix_sign_with_K.py) -/

/-- One row of the dataframe given to `fix_sign_with_K`.  Every column the
function may touch is a field; whether a column is present in the table is
recorded in `STable`.  `Zt` is a complex value, stored as (real, imaginary). -/
structure SRow where
  a : ℤ
  b : ℤ
  m : ℤ
  n : ℤ
  K : ℚ
  r : ℚ
  Vmn : ℚ
  Zt : ℚ × ℚ
  rho_a : ℚ
  rpha : ℝ

instance : Inhabited SRow := ⟨⟨0, 0, 0, 0, 0, 0, 0, (0, 0), 0, 0⟩⟩

/-- The dataframe given to `fix_sign_with_K`: which columns are present, and
the rows.  The electrode columns `a`, `b`, `m`, `n` are always present (the
function reads them unconditionally). -/
structure STable where
  hasK : Bool
  hasR : Bool
  hasVmn : Bool
  hasZt : Bool
  hasRhoa : Bool
  hasRpha : Bool
  rows : List SRow

/-- The exceptions `fix_sign_with_K` can raise: the named precondition
failure `Exception('K and r columns required!')`, or an unnamed pandas
`KeyError` from accessing a missing column. -/
inductive FixErr where
  | requiredColumns : FixErr
  | keyError : String → FixErr
deriving DecidableEq

/-- The flip set of `fix_sign_with_K`: `indices_negative = (K < 0) & (r < 0)`. -/
def flipSelected (row : SRow) : Bool :=
  decide (row.K < 0) && decide (row.r < 0)

/-- The row-wise mutation of lines 37-59 of fix_sign_with_K.py: on the flip
set, negate `K` and `r`; swap `a`,`b` when `a > b`, else swap `m`,`n` when
`a < b` (both masks are computed from the original electrode order before any
swap); then negate `Vmn` and `Zt` when those columns are present.  Rows
outside the flip set are untouched. -/
def fixRow (t : STable) (row : SRow) : SRow :=
  if flipSelected row then
    let row1 : SRow := { row with K := -row.K, r := -row.r }
    let row2 : SRow :=
      if row.a > row.b then { row1 with a := row.b, b := row.a }
      else if row.a < row.b then { row1 with m := row.n, n := row.m }
      else row1
    let row3 : SRow := if t.hasVmn then { row2 with Vmn := -row2.Vmn } else row2
    if t.hasZt then { row3 with Zt := (-row3.Zt.1, -row3.Zt.2) } else row3
  else row

/-- The row-wise recomputation of lines 60-68 of fix_sign_with_K.py: when
`rho_a` is present, `rho_a = r * K` for every row; when `rpha` is present,
`rpha = arctan2(Im Zt, Re Zt) * 1e3` for every row. -/
noncomputable def recomputeRow (t : STable) (row : SRow) : SRow :=
  let row1 : SRow := if t.hasRhoa then { row with rho_a := row.r * row.K } else row
  if t.hasRpha then { row1 with rpha := np_arctan2 row1.Zt.2 row1.Zt.1 * 1000 } else row1

/-- Embedding of `fix_sign_with_K` (lines 8-70 of fix_sign_with_K.py).  The
`K`/`r` precondition is checked first; the `rpha` branch reads the `Zt`
column guarded only on the presence of `rpha`, so a table with `rpha` but
without `Zt` raises a `KeyError` for `Zt`. -/
noncomputable def fix_sign_with_K (t : STable) : Except FixErr STable :=
  if !(t.hasK && t.hasR) then Except.error FixErr.requiredColumns
  else if t.hasRpha && !t.hasZt then Except.error (FixErr.keyError "Zt")
  else Except.ok { t with rows := t.rows.map (fun row => recomputeRow t (fixRow t row)) }

/-! ### Row-level lemmas about `fixRow` and `recomputeRow` -/

/-- Closed per-field form of `fixRow`. -/
lemma fixRow_eq (t : STable) (row : SRow) :
    fixRow t row =
      if flipSelected row then
        { a := if row.a > row.b then row.b else row.a,
          b := if row.a > row.b then row.a else row.b,
          m := if row.a > row.b then row.m else if row.a < row.b then row.n else row.m,
          n := if row.a > row.b then row.n else if row.a < row.b then row.m else row.n,
          K := -row.K, r := -row.r,
          Vmn := if t.hasVmn then -row.Vmn else row.Vmn,
          Zt := if t.hasZt then (-row.Zt.1, -row.Zt.2) else row.Zt,
          rho_a := row.rho_a, rpha := row.rpha }
      else row := by
  unfold fixRow
  split_ifs <;> rfl

@[simp] lemma recomputeRow_a (t : STable) (row : SRow) : (recomputeRow t row).a = row.a := by
  unfold recomputeRow; split_ifs <;> rfl

@[simp] lemma recomputeRow_b (t : STable) (row : SRow) : (recomputeRow t row).b = row.b := by
  unfold recomputeRow; split_ifs <;> rfl

@[simp] lemma recomputeRow_m (t : STable) (row : SRow) : (recomputeRow t row).m = row.m := by
  unfold recomputeRow; split_ifs <;> rfl

@[simp] lemma recomputeRow_n (t : STable) (row : SRow) : (recomputeRow t row).n = row.n := by
  unfold recomputeRow; split_ifs <;> rfl

@[simp] lemma recomputeRow_K (t : STable) (row : SRow) : (recomputeRow t row).K = row.K := by
  unfold recomputeRow; split_ifs <;> rfl

@[simp] lemma recomputeRow_r (t : STable) (row : SRow) : (recomputeRow t row).r = row.r := by
  unfold recomputeRow; split_ifs <;> rfl

@[simp] lemma recomputeRow_Vmn (t : STable) (row : SRow) : (recomputeRow t row).Vmn = row.Vmn := by
  unfold recomputeRow; split_ifs <;> rfl

@[simp] lemma recomputeRow_Zt (t : STable) (row : SRow) : (recomputeRow t row).Zt = row.Zt := by
  unfold recomputeRow; split_ifs <;> rfl

/-- The outcome of `fix_sign_with_K` when the required columns are present and
the `rpha`/`Zt` access cannot fail. -/
lemma fix_sign_ok (t : STable) (hK : t.hasK = true) (hR : t.hasR = true)
    (hz : t.hasRpha = true → t.hasZt = true) :
    fix_sign_with_K t =
      Except.ok { t with rows := t.rows.map (fun row => recomputeRow t (fixRow t row)) } := by
  unfold fix_sign_with_K
  have h1 : (!(t.hasK && t.hasR)) = false := by simp [hK, hR]
  have h2 : (t.hasRpha && !t.hasZt) = false := by
    cases hp : t.hasRpha
    · simp
    · simp [hz hp]
  rw [h1, h2]
  rfl

/-- Inversion: an `ok` result of `fix_sign_with_K` is the mapped table. -/
lemma fix_sign_ok_inv (t s : STable) (h : fix_sign_with_K t = Except.ok s) :
    s = { t with rows := t.rows.map (fun row => recomputeRow t (fixRow t row)) } := by
  unfold fix_sign_with_K at h
  split_ifs at h
  all_goals cases h
  all_goals rfl

@[simp] lemma flipSelected_recomputeRow (t : STable) (row : SRow) :
    flipSelected (recomputeRow t row) = flipSelected row := by
  unfold recomputeRow flipSelected
  split_ifs <;> rfl

lemma fixRow_not_flip (t : STable) (row : SRow) (h : flipSelected row = false) :
    fixRow t row = row := by
  rw [fixRow_eq, h]
  rfl

/-- After the mutation pass, no row is in the flip set any more. -/
lemma flipSelected_fixRow (t : STable) (row : SRow) :
    flipSelected (fixRow t row) = false := by
  rw [fixRow_eq]
  cases hf : flipSelected row with
  | false => simpa using hf
  | true =>
    have h' : row.K < 0 ∧ row.r < 0 := by simpa [flipSelected] using hf
    have hpos : ¬ (-row.K < 0) := by linarith [h'.1]
    simp [flipSelected, hpos]

lemma recomputeRow_idem (t : STable) (row : SRow) :
    recomputeRow t (recomputeRow t row) = recomputeRow t row := by
  unfold recomputeRow
  split_ifs <;> rfl

/-- The whole per-row pipeline of `fix_sign_with_K` is idempotent. -/
lemma fix_pipeline_idem (t : STable) (row : SRow) :
    recomputeRow t (fixRow t (recomputeRow t (fixRow t row))) =
      recomputeRow t (fixRow t row) := by
  have h1 : flipSelected (recomputeRow t (fixRow t row)) = false := by
    rw [flipSelected_recomputeRow]
    exact flipSelected_fixRow t row
  rw [fixRow_not_flip _ _ h1, recomputeRow_idem]

lemma fix_sign_ok_flags (t s : STable) (h : fix_sign_with_K t = Except.ok s) :
    t.hasK = true ∧ t.hasR = true ∧ (t.hasRpha = true → t.hasZt = true) := by
  cases hK : t.hasK <;> cases hR : t.hasR <;> cases hp : t.hasRpha <;> cases hz : t.hasZt <;>
    simp [fix_sign_with_K, hK, hR, hp, hz] at h ⊢

/-! ### Claims C1, C8, C9, C10 about `fix_sign_with_K` -/

/-- The row of the C1 counterexample: its geometric factor `K` is negative
while the resistance `r` is positive, so the row is outside the flip set
`K < 0 ∧ r < 0`. -/
def rowC1 : SRow :=
  { a := 1, b := 2, m := 3, n := 4, K := -1, r := 5, Vmn := 0,
    Zt := (0, 0), rho_a := 0, rpha := 0 }

/-- The table of the C1 counterexample. -/
def tableC1 : STable :=
  { hasK := true, hasR := true, hasVmn := false, hasZt := false,
    hasRhoa := false, hasRpha := false, rows := [rowC1] }

/-- Claim C1 counterexample: `fix_sign_with_K` does not return a table with a
non-negative geometric factor in every row.  A row with `K = -1 < 0` and
`r = 5 > 0` is outside the flip set (which requires `K < 0` and `r < 0`) and
keeps its negative `K` in the returned table. -/
theorem fix_sign_nonneg_K_cex :
    ∃ s, fix_sign_with_K tableC1 = Except.ok s ∧ ∃ row ∈ s.rows, row.K < 0 := by
  refine ⟨_, fix_sign_ok tableC1 rfl rfl (by simp [tableC1]), ?_⟩
  refine ⟨recomputeRow tableC1 (fixRow tableC1 rowC1),
    List.mem_map_of_mem _ (by simp [tableC1]), ?_⟩
  rw [recomputeRow_K, fixRow_not_flip _ _ (by norm_num [flipSelected, rowC1])]
  norm_num [rowC1]

/-- Claim C1 (amended): given a table containing `K` and `r`,
`fix_sign_with_K` returns a table in which no row has both a negative
geometric factor `K` and a negative resistance `r` (rows in which only one of
`K`, `r` is negative are left alone, so a lone negative `K` can survive). -/
theorem fix_sign_no_negative_pair (t s : STable)
    (h : fix_sign_with_K t = Except.ok s) :
    ∀ row ∈ s.rows, ¬ (row.K < 0 ∧ row.r < 0) := by
  obtain rfl := fix_sign_ok_inv t s h
  intro row hrow
  obtain ⟨row0, -, rfl⟩ := List.mem_map.1 hrow
  intro hc
  have hflip : flipSelected (fixRow t row0) = true := by
    have h1 := hc.1
    have h2 := hc.2
    rw [recomputeRow_K] at h1
    rw [recomputeRow_r] at h2
    simp [flipSelected, h1, h2]
  rw [flipSelected_fixRow] at hflip
  cases hflip

/-- Witness for C1's amended theorem at the concrete table `tableC1`. -/
theorem fix_sign_no_negative_pair_witness :
    ∃ s, fix_sign_with_K tableC1 = Except.ok s ∧
      ∀ row ∈ s.rows, ¬ (row.K < 0 ∧ row.r < 0) := by
  have hok := fix_sign_ok tableC1 rfl rfl (by simp [tableC1])
  exact ⟨_, hok, fix_sign_no_negative_pair tableC1 _ hok⟩

/-- The per-row property claimed for the sign fix (claim C8): exactly the
rows with `K < 0` and `r < 0` get `K` and `r` negated, and within the flip
set the relabeling depends on the original electrode order: `a > b` swaps the
stored `a`,`b`; `a < b` swaps the stored `m`,`n`; `a = b` leaves all four
electrode labels untouched.  Rows outside the flip set are unchanged in all
six of these columns. -/
def flipSpec (x y : SRow) : Prop :=
  (x.K < 0 ∧ x.r < 0 →
     y.K = -x.K ∧ y.r = -x.r ∧
     (x.a > x.b → y.a = x.b ∧ y.b = x.a ∧ y.m = x.m ∧ y.n = x.n) ∧
     (x.a < x.b → y.m = x.n ∧ y.n = x.m ∧ y.a = x.a ∧ y.b = x.b) ∧
     (x.a = x.b → y.a = x.a ∧ y.b = x.b ∧ y.m = x.m ∧ y.n = x.n)) ∧
  (¬ (x.K < 0 ∧ x.r < 0) →
     y.K = x.K ∧ y.r = x.r ∧ y.a = x.a ∧ y.b = x.b ∧ y.m = x.m ∧ y.n = x.n)

lemma flipSpec_pipeline (t : STable) (row : SRow) :
    flipSpec row (recomputeRow t (fixRow t row)) := by
  constructor
  · intro hc
    have hflip : flipSelected row = true := by simp [flipSelected, hc.1, hc.2]
    simp only [recomputeRow_K, recomputeRow_r, recomputeRow_a, recomputeRow_b,
      recomputeRow_m, recomputeRow_n, fixRow_eq, hflip, if_true]
    refine ⟨trivial, trivial, ?_, ?_, ?_⟩
    · intro hab
      simp [hab]
    · intro hab
      have hab' : ¬ (row.a > row.b) := by omega
      simp [hab, hab']
    · intro hab
      have hab' : ¬ (row.a > row.b) := by omega
      have hab'' : ¬ (row.a < row.b) := by omega
      simp [hab', hab'']
  · intro hc
    have hflip : flipSelected row = false := by
      cases hv : flipSelected row with
      | false => rfl
      | true => exact absurd (by simpa [flipSelected] using hv) hc
    rw [fixRow_not_flip _ _ hflip]
    simp

/-- Claim C8: row-wise behaviour of the flip set.  Exactly the rows with
`K < 0` and `r < 0` get `K` and `r` negated; within the flip set, based on
the original electrode order, rows with `a > b` get `a`,`b` swapped, rows
with `a < b` get `m`,`n` swapped, and rows with `a = b` keep all labels. -/
theorem fix_sign_flip_rules (t s : STable)
    (h : fix_sign_with_K t = Except.ok s) :
    List.Forall₂ flipSpec t.rows s.rows := by
  obtain rfl := fix_sign_ok_inv t s h
  show List.Forall₂ flipSpec t.rows (t.rows.map fun row => recomputeRow t (fixRow t row))
  rw [List.forall₂_map_right_iff]
  exact List.forall₂_same.2 fun x _ => flipSpec_pipeline t x

/-- The table of the spec's sign-normalization example: the row
`a=1, b=2, m=3, n=4, r=-10, K=-20`. -/
def tableW8 : STable :=
  { hasK := true, hasR := true, hasVmn := false, hasZt := false,
    hasRhoa := false, hasRpha := false,
    rows := [{ a := 1, b := 2, m := 3, n := 4, K := -20, r := -10, Vmn := 0,
               Zt := (0, 0), rho_a := 0, rpha := 0 }] }

/-- Witness for C8 at the spec's example row: the output row has `K=20`,
`r=10`, `m=4`, `n=3` and unchanged `a=1`, `b=2`. -/
theorem fix_sign_flip_rules_witness :
    ∃ s, fix_sign_with_K tableW8 = Except.ok s ∧
      List.Forall₂ flipSpec tableW8.rows s.rows ∧
      (s.rows.getD 0 default).K = 20 ∧ (s.rows.getD 0 default).r = 10 ∧
      (s.rows.getD 0 default).a = 1 ∧ (s.rows.getD 0 default).b = 2 ∧
      (s.rows.getD 0 default).m = 4 ∧ (s.rows.getD 0 default).n = 3 := by
  have hok := fix_sign_ok tableW8 rfl rfl (by simp [tableW8])
  refine ⟨_, hok, fix_sign_flip_rules tableW8 _ hok, ?_, ?_, ?_, ?_, ?_, ?_⟩
  all_goals decide

/-- Claim C9: `fix_sign_with_K` is idempotent.  A second application to an
`ok` output keeps the table unchanged in every column, including the
recomputed `rho_a` and `rpha` (the second run's flip set is empty, by
`flipSelected_fixRow`). -/
theorem fix_sign_idempotent (t s : STable)
    (h : fix_sign_with_K t = Except.ok s) :
    fix_sign_with_K s = Except.ok s := by
  obtain ⟨hK, hR, hz⟩ := fix_sign_ok_flags t s h
  obtain rfl := fix_sign_ok_inv t s h
  set A : STable := { t with rows := t.rows.map fun row => recomputeRow t (fixRow t row) }
  have hrows : A.rows.map (fun row => recomputeRow A (fixRow A row)) = A.rows := by
    show (t.rows.map fun row => recomputeRow t (fixRow t row)).map
          (fun row => recomputeRow t (fixRow t row)) =
        t.rows.map fun row => recomputeRow t (fixRow t row)
    rw [List.map_map]
    exact List.map_congr_left fun x _ => fix_pipeline_idem t x
  rw [fix_sign_ok A hK hR hz, hrows]

/-- The table for the C9 witness: every optional column present, one row in
the flip set and one row outside it. -/
def tableW9 : STable :=
  { hasK := true, hasR := true, hasVmn := true, hasZt := true,
    hasRhoa := true, hasRpha := true,
    rows := [{ a := 1, b := 2, m := 3, n := 4, K := -20, r := -10, Vmn := 3,
               Zt := (-2, 1), rho_a := 200, rpha := 0 },
             { a := 2, b := 1, m := 4, n := 3, K := 7, r := 5, Vmn := 2,
               Zt := (1, 1), rho_a := 35, rpha := 0 }] }

/-- Witness for C9 at the concrete table `tableW9`. -/
theorem fix_sign_idempotent_witness :
    ∃ s, fix_sign_with_K tableW9 = Except.ok s ∧ fix_sign_with_K s = Except.ok s := by
  have hok := fix_sign_ok tableW9 rfl rfl (by simp [tableW9])
  exact ⟨_, hok, fix_sign_idempotent tableW9 _ hok⟩

/-- Claim C10: a table with `K`, `r` and `rpha` but without `Zt` does not get
a result: the `rpha` recomputation branch is guarded only on the presence of
`rpha` and reads the `Zt` column unconditionally, so the call fails with an
unnamed missing-column access (a `KeyError` for `Zt`), not with the named
precondition failure `K and r columns required`. -/
theorem fix_sign_missing_Zt (t : STable) (hK : t.hasK = true) (hR : t.hasR = true)
    (hp : t.hasRpha = true) (hz : t.hasZt = false) :
    fix_sign_with_K t = Except.error (FixErr.keyError "Zt") ∧
    fix_sign_with_K t ≠ Except.error FixErr.requiredColumns := by
  have h : fix_sign_with_K t = Except.error (FixErr.keyError "Zt") := by
    unfold fix_sign_with_K
    simp [hK, hR, hp, hz]
  refine ⟨h, ?_⟩
  rw [h]
  simp

/-- The table for the C10 witness: `K`, `r`, `rpha` present, `Zt` absent. -/
def tableW10 : STable :=
  { hasK := true, hasR := true, hasVmn := false, hasZt := false,
    hasRhoa := false, hasRpha := true, rows := [] }

/-- Witness for C10 at the concrete table `tableW10`. -/
theorem fix_sign_missing_Zt_witness :
    fix_sign_with_K tableW10 = Except.error (FixErr.keyError "Zt") ∧
    fix_sign_with_K tableW10 ≠ Except.error FixErr.requiredColumns :=
  fix_sign_missing_Zt tableW10 rfl rfl rfl rfl

/-! ## Embedding of `apply_correction_factors` (src/lib/reda/importers/eit_fzj.py,
lines 172-238) -/

/-- A raw correction source as `np.loadtxt` delivers it: a rectangular matrix
of numbers, one row per line. -/
abbrev Mat := List (List ℚ)

/-- The column count of a loaded matrix (`shape[1]`). -/
def ncols (m : Mat) : Nat := (m.headD []).length

/-- `astype(int)` on a float: truncation toward zero. -/
def truncQ (q : ℚ) : ℤ := if q < 0 then Int.ceil q else Int.floor q

/-- numpy float `%`: `a % b = a - b * floor(a / b)` (sign of the divisor). -/
def pymod (a b : ℚ) : ℚ := a - b * ((Int.floor (a / b) : ℤ) : ℚ)

/-- Decoding of one row of the packed legacy 3-column correction format
(lines 183-188): `A = int(v0 / 1e4)`, `B = int(v0 % 1e4)`, `M = int(v1 / 1e4)`,
`N = int(v1 % 1e4)`, keeping the factor in the third column. -/
def decodeLegacyRow (row : List ℚ) : List ℚ :=
  [((truncQ (row.getD 0 0 / 10000) : ℤ) : ℚ),
   ((truncQ (pymod (row.getD 0 0) 10000) : ℤ) : ℚ),
   ((truncQ (row.getD 1 0 / 10000) : ℤ) : ℚ),
   ((truncQ (pymod (row.getD 1 0) 10000) : ℤ) : ℚ),
   row.getD 2 0]

/-- One canonicalized correction entry: current pair and potential pair each
sorted ascending, plus the factor. -/
structure CorrEntry where
  A : ℚ
  B : ℚ
  M : ℚ
  N : ℚ
  factor : ℚ
deriving DecidableEq

/-- The canonicalization of lines 194-195: `np.sort` on columns 0:2 and on
columns 2:4 of each correction row. -/
def sortPairsRow (row : List ℚ) : CorrEntry :=
  { A := min (row.getD 0 0) (row.getD 1 0),
    B := max (row.getD 0 0) (row.getD 1 0),
    M := min (row.getD 2 0) (row.getD 3 0),
    N := max (row.getD 2 0) (row.getD 3 0),
    factor := row.getD 4 0 }

/-- The Python errors `apply_correction_factors` can produce. -/
inductive PyErr where
  | exception : String → PyErr
  | unboundLocal : String → PyErr
  | valueError : String → PyErr
deriving DecidableEq

/-- The correction input: a single loaded source, or a list of loaded
sources (`isinstance(correction_file, (list, tuple))`). -/
inductive CorrSource where
  | single : Mat → CorrSource
  | many : List Mat → CorrSource

/-- The loading phase, lines 176-195.  For a single source the column count
selects the decoding: 3 columns are decoded from the packed legacy form,
5 columns are taken as-is, any other count raises `Exception('error')`; the
pair-sorting of lines 194-195 then canonicalizes every row.  For a list of
sources the arrays are stacked (`np.vstack`, which needs equal widths), but
the column-count detection block of lines 183-193 is nested inside the
single-source `else` branch and is skipped, so the local variable
`corr_data` is never assigned and line 194 fails with an
`UnboundLocalError` before anything else can happen. -/
def loadCorrData (src : CorrSource) : Except PyErr (List CorrEntry) :=
  match src with
  | CorrSource.many ms =>
      if ms.all (fun mm => ncols mm == ncols (ms.headD [])) then
        Except.error (PyErr.unboundLocal "corr_data")
      else Except.error (PyErr.valueError "np.vstack: incompatible shapes")
  | CorrSource.single m =>
      if ncols m = 3 then Except.ok ((m.map decodeLegacyRow).map sortPairsRow)
      else if ncols m = 5 then Except.ok (m.map sortPairsRow)
      else Except.error (PyErr.exception "error")

/-- One row of the quadrupole dataframe given to `apply_correction_factors`. -/
structure CQRow where
  a : ℤ
  b : ℤ
  m : ℤ
  n : ℤ
  r : ℚ
  Vmn : ℚ
  rho_a : ℚ
  Zt : ℚ × ℚ
  corr_fac : ℚ
deriving DecidableEq

instance : Inhabited CQRow := ⟨⟨0, 0, 0, 0, 0, 0, 0, (0, 0), 0⟩⟩

/-- The quadrupole dataframe for the corrector: column presence flags and
rows.  `a`, `b`, `m`, `n` are always present (the groupby reads them). -/
structure CQTable where
  hasFrequency : Bool
  hasR : Bool
  hasZt : Bool
  hasVmn : Bool
  hasRhoa : Bool
  rows : List CQRow
deriving DecidableEq

/-- The factors of the correction entries matching a row's canonicalized
electrode quadruple (`item_norm`, lines 207-214): the current pair and the
potential pair of the group key are sorted and compared against the
canonicalized correction table. -/
def matchesOf (entries : List CorrEntry) (row : CQRow) : List ℚ :=
  (entries.filter (fun e =>
     decide (e.A = ((min row.a row.b : ℤ) : ℚ)) &&
     decide (e.B = ((max row.a row.b : ℤ) : ℚ)) &&
     decide (e.M = ((min row.m row.n : ℤ) : ℚ)) &&
     decide (e.N = ((max row.m row.n : ℤ) : ℚ)))).map CorrEntry.factor

/-- The in-place multiplication of lines 233-237 for one row whose group
matched the factor `f`: every present column among `r`, `Zt`, `Vmn`, `rho_a`
is multiplied by `f`, and `corr_fac` is set to `f`.  All rows of a group
share the same `(a,b,m,n)` key, hence the same factor, so the per-group
loop acts row-wise. -/
def scaleRow (t : CQTable) (entries : List CorrEntry) (row : CQRow) : CQRow :=
  let f := (matchesOf entries row).headD 1
  { row with
    r := if t.hasR then row.r * f else row.r,
    Zt := if t.hasZt then (row.Zt.1 * f, row.Zt.2 * f) else row.Zt,
    Vmn := if t.hasVmn then row.Vmn * f else row.Vmn,
    rho_a := if t.hasRhoa then row.rho_a * f else row.rho_a,
    corr_fac := f }

/-- What a call of `apply_correction_factors` does, beyond its return value:
`debugSessions` records each `IPython.embed()` interactive session the call
enters (lines 217-219 print the offending group key and drop into the
debugger before raising), and `result` is the returned pair or the raised
exception. -/
structure CorrOutcome where
  debugSessions : List (ℤ × ℤ × ℤ × ℤ)
  result : Except PyErr (CQTable × List CorrEntry)

/-- Embedding of `apply_correction_factors` (lines 172-238).  After loading,
a missing `frequency` column is a named fatal error; then each group of rows
sharing `(a,b,m,n)` is looked up by its canonicalized key: a group with no
matching entry prints its key, enters the debugger and raises the generic
`Exception('No correction factor found for this configuration')`; otherwise
the present columns among `r`, `Zt`, `Vmn`, `rho_a` are scaled by the factor
and `corr_fac` records it.  (A key matched by several correction rows would
broadcast a length>1 factor array; the model keeps that case as the numpy
error it produces for group sizes other than the match count.  The function
works on a `reset_index` copy, so the caller's table is never mutated.) -/
def apply_correction_factors (df : CQTable) (src : CorrSource) : CorrOutcome :=
  match loadCorrData src with
  | Except.error e => ⟨[], Except.error e⟩
  | Except.ok entries =>
    if !df.hasFrequency then
      ⟨[], Except.error (PyErr.exception
        "No frequency data found. Are you sure this is a seit data set?")⟩
    else
      match df.rows.find? (fun row => (matchesOf entries row).isEmpty) with
      | some row =>
          ⟨[(row.a, row.b, row.m, row.n)],
           Except.error (PyErr.exception
             "No correction factor found for this configuration")⟩
      | none =>
          if df.rows.all (fun row => (matchesOf entries row).length == 1) then
            ⟨[], Except.ok ({ df with rows := df.rows.map (scaleRow df entries) }, entries)⟩
          else ⟨[], Except.error (PyErr.valueError "broadcast length mismatch")⟩

/-! ### Claims C2, C3, C5, C7 about `apply_correction_factors` -/

/-- The quadrupole row of the unmatched-calibration failing input: group key
`(1, 2, 3, 4)`. -/
def rowC2 : CQRow :=
  { a := 1, b := 2, m := 3, n := 4, r := 1, Vmn := 1, rho_a := 1,
    Zt := (1, 1), corr_fac := 0 }

/-- The quadrupole table of the unmatched-calibration failing input. -/
def dfC2 : CQTable :=
  { hasFrequency := true, hasR := true, hasZt := true, hasVmn := true,
    hasRhoa := true, rows := [rowC2] }

/-- A 5-column correction source whose only entry is for the different
quadruple `(5, 6, 7, 8)`. -/
def srcC2 : CorrSource := CorrSource.single [[5, 6, 7, 8, 2]]

/-- Two 5-column correction sources, for the list-input failing case of C5. -/
def matC5a : Mat := [[1, 2, 3, 4, (3 : ℚ)/2]]

def matC5b : Mat := [[5, 6, 7, 8, 2]]

/-- A packed legacy 3-column source: `10002 = 1*10^4 + 2`, `30004 = 3*10^4 + 4`. -/
def matC5legacy : Mat := [[10002, 30004, 2]]

/-- A malformed 4-column source. -/
def matC5bad : Mat := [[1, 2, 3, 4]]

/-- Round trip of the per-row scaling: with a unique nonzero matched factor,
each present column is multiplied by `f`, `corr_fac` becomes `f`, and
dividing by `f` restores the original value. -/
lemma scaleRow_round_trip (df : CQTable) (entries : List CorrEntry) (x : CQRow)
    (f : ℚ) (hf : matchesOf entries x = [f]) (hf0 : f ≠ 0) :
    (scaleRow df entries x).corr_fac = f ∧
    (df.hasR = true →
      (scaleRow df entries x).r = x.r * f ∧ (scaleRow df entries x).r / f = x.r) ∧
    (df.hasZt = true →
      (scaleRow df entries x).Zt = (x.Zt.1 * f, x.Zt.2 * f) ∧
      ((scaleRow df entries x).Zt.1 / f, (scaleRow df entries x).Zt.2 / f) = x.Zt) ∧
    (df.hasVmn = true →
      (scaleRow df entries x).Vmn = x.Vmn * f ∧ (scaleRow df entries x).Vmn / f = x.Vmn) ∧
    (df.hasRhoa = true →
      (scaleRow df entries x).rho_a = x.rho_a * f ∧
      (scaleRow df entries x).rho_a / f = x.rho_a) := by
  have hcancel : ∀ y : ℚ, y * f / f = y := fun y => mul_div_cancel_right₀ y hf0
  simp only [scaleRow, hf, List.headD_cons]
  refine ⟨trivial, fun hflag => ?_, fun hflag => ?_, fun hflag => ?_, fun hflag => ?_⟩ <;>
    simp [hflag, hcancel]

/-- The row of the C7 counterexample and witness: group key `(1, 2, 3, 4)`,
all scalable columns present. -/
def rowC7 : CQRow :=
  { a := 1, b := 2, m := 3, n := 4, r := 2, Vmn := 3, rho_a := 5,
    Zt := (7, 11), corr_fac := 0 }

/-- The quadrupole table for C7. -/
def dfC7 : CQTable :=
  { hasFrequency := true, hasR := true, hasZt := true, hasVmn := true,
    hasRhoa := true, rows := [rowC7] }

/-- A correction source whose entry for `(1,2,3,4)` carries the factor `0`. -/
def srcC7 : CorrSource := CorrSource.single [[1, 2, 3, 4, 0]]

/-- The canonicalized entries loaded from `srcC7`. -/
def entriesC7 : List CorrEntry := [{ A := 1, B := 2, M := 3, N := 4, factor := 0 }]

/-- A correction source whose entry for `(1,2,3,4)` carries the factor `2`. -/
def srcW7 : CorrSource := CorrSource.single [[1, 2, 3, 4, 2]]

/-- The canonicalized entries loaded from `srcW7`. -/
def entriesW7 : List CorrEntry := [{ A := 1, B := 2, M := 3, N := 4, factor := 2 }]

/-- One row of the 3P (tripole) EMD dataframe: the query columns `A`, `B`,
`P`, the carried-through columns (`keep_cols`), the lowercase electrode
duplicates, and the complex transfer impedance `Zt` as (real, imaginary). -/
structure TriRow where
  A : ℤ
  B : ℤ
  P : ℤ
  a : ℤ
  b : ℤ
  p : ℤ
  datetime : ℚ
  frequency : ℚ
  Zg1 : ℚ
  Zg2 : ℚ
  Zg3 : ℚ
  Is : ℚ
  Il : ℚ
  Zg : ℚ
  Iab : ℚ
  Zt : ℚ × ℚ
deriving DecidableEq

/-- One constructed 4P (quadrupole) row: the carried columns from the M-row,
the superposed `Zt`, the potential electrodes `m`, `n`, and the derived real
quantities `r`, `Vmn`, `rpha` computed by the vectorized pass of lines
157-165. -/
structure QuadRow where
  datetime : ℚ
  frequency : ℚ
  a : ℤ
  b : ℤ
  Zg1 : ℚ
  Zg2 : ℚ
  Zg3 : ℚ
  Is : ℚ
  Il : ℚ
  Zg : ℚ
  Iab : ℚ
  Zt : ℚ × ℚ
  m : ℤ
  n : ℤ
  r : ℝ
  Vmn : ℝ
  rpha : ℝ

/-- `np.sign` on a real value (`sign 0 = 0`). -/
noncomputable def np_sign (x : ℚ) : ℝ := Real.sign (x : ℝ)

/-- `np.abs` of a complex value stored as (real, imaginary). -/
noncomputable def np_abs (z : ℚ × ℚ) : ℝ := Complex.abs ⟨(z.1 : ℝ), (z.2 : ℝ)⟩

/-- One output row built from the M-side tripole row `rm` and the N-side
tripole row `rn` (lines 147-153 for the construction, lines 159-165 for the
derived columns): the kept columns come from `rm`, `Zt = rm.Zt - rn.Zt`,
`m = rm.p`, `n = rn.p`, `r = sign(Re Zt) * |Zt|`, `Vmn = r * Iab`,
`rpha = arctan2(Im Zt, Re Zt) * 1e3`. -/
noncomputable def mkQuad (rm rn : TriRow) : QuadRow :=
  let zt : ℚ × ℚ := (rm.Zt.1 - rn.Zt.1, rm.Zt.2 - rn.Zt.2)
  let rVal : ℝ := np_sign zt.1 * np_abs zt
  { datetime := rm.datetime, frequency := rm.frequency, a := rm.a, b := rm.b,
    Zg1 := rm.Zg1, Zg2 := rm.Zg2, Zg3 := rm.Zg3, Is := rm.Is, Il := rm.Il,
    Zg := rm.Zg, Iab := rm.Iab, Zt := zt, m := rm.p, n := rn.p,
    r := rVal, Vmn := rVal * (rm.Iab : ℝ),
    rpha := np_arctan2 zt.2 zt.1 * 1000 }

/-- The selection `df_emd.query('A=={0} and B=={1} and P=={2}')`. -/
def queryRows (df : List TriRow) (A B P : ℤ) : List TriRow :=
  df.filter (fun row => decide (row.A = A) && decide (row.B = B) && decide (row.P = P))

/-- The body of the per-configuration loop (lines 116-155) for one
configuration `(Ar, Br, M, N)`: canonicalize the current pair, select the
M-side and N-side tripole rows, skip the configuration entirely when either
selection is empty, and otherwise emit one quadrupole row per selected row
pair: the columnwise subtraction `query_M[col].values - query_N[col].values`
and the assignments `df4['m'] = query_M['p'].values`,
`df4['n'] = query_N['p'].values` pair the two selections positionally into
the `len(query_M)`-row frame `df4`.  Selections of unequal length abort with
a `ValueError`: either the numpy subtraction cannot broadcast the shapes, or
(when one side is a single row, which the subtraction would broadcast) the
pandas column assignment of the other side's length-1 `p` array into the
longer frame rejects the length mismatch. -/
noncomputable def rowsForConfig (df : List TriRow) (cfg : ℤ × ℤ × ℤ × ℤ) :
    Except String (List QuadRow) :=
  let A := min cfg.1 cfg.2.1
  let B := max cfg.1 cfg.2.1
  let qM := queryRows df A B cfg.2.2.1
  let qN := queryRows df A B cfg.2.2.2
  if qM.isEmpty || qN.isEmpty then Except.ok []
  else if qM.length = qN.length then Except.ok (List.zipWith mkQuad qM qN)
  else Except.error "Length of values does not match length of index"

/-- Embedding of `compute_quadrupoles` over an in-memory configuration array:
the per-configuration results are concatenated (`pd.concat`), and an empty
`quadpole_list` yields an empty table rather than an error. -/
noncomputable def compute_quadrupoles (df : List TriRow)
    (configs : List (ℤ × ℤ × ℤ × ℤ)) : Except String (List QuadRow) :=
  match configs with
  | [] => Except.ok []
  | cfg :: rest => do
    let l ← rowsForConfig df cfg
    let ls ← compute_quadrupoles df rest
    Except.ok (l ++ ls)

/-! ### Lemmas about `compute_quadrupoles` -/

@[simp] lemma exceptBind_ok {ε α β : Type} (a : α) (f : α → Except ε β) :
    Except.bind (Except.ok a : Except ε α) f = f a := rfl

@[simp] lemma exceptBind_error {ε α β : Type} (e : ε) (f : α → Except ε β) :
    Except.bind (Except.error e : Except ε α) f = Except.error e := rfl

/-- The recursion step of `compute_quadrupoles`, with its monadic binds made
explicit. -/
lemma compute_quadrupoles_cons (df : List TriRow) (c : ℤ × ℤ × ℤ × ℤ)
    (rest : List (ℤ × ℤ × ℤ × ℤ)) :
    compute_quadrupoles df (c :: rest) =
      Except.bind (rowsForConfig df c) (fun l =>
        Except.bind (compute_quadrupoles df rest) (fun ls => Except.ok (l ++ ls))) := rfl

/-- Rows contributed by any configuration of the list end up in the
concatenated result. -/
lemma compute_quadrupoles_mem (df : List TriRow) (configs : List (ℤ × ℤ × ℤ × ℤ))
    (cfg : ℤ × ℤ × ℤ × ℤ) (l : List QuadRow)
    (hcfg : cfg ∈ configs) (hl : rowsForConfig df cfg = Except.ok l) :
    ∀ rows, compute_quadrupoles df configs = Except.ok rows → ∀ q ∈ l, q ∈ rows := by
  induction configs with
  | nil => cases hcfg
  | cons c rest ih =>
    intro rows hok q hq
    rw [compute_quadrupoles_cons] at hok
    cases hc : rowsForConfig df c with
    | error e =>
      rw [hc] at hok
      rw [exceptBind_error] at hok
      cases hok
    | ok l0 =>
      rw [hc] at hok
      rw [exceptBind_ok] at hok
      cases hrest : compute_quadrupoles df rest with
      | error e =>
        rw [hrest] at hok
        rw [exceptBind_error] at hok
        cases hok
      | ok ls =>
        rw [hrest] at hok
        rw [exceptBind_ok] at hok
        obtain rfl : l0 ++ ls = rows := by
          cases hok
          rfl
        rcases List.mem_cons.mp hcfg with rfl | hmem
        · rw [hl] at hc
          obtain rfl : l = l0 := by
            cases hc
            rfl
          exact List.mem_append_left _ hq
        · exact List.mem_append_right _ (ih hmem ls hrest q hq)

/-- A configuration whose two selections are singletons contributes exactly
the one superposed row. -/
lemma rowsForConfig_singleton (df : List TriRow) (Ar Br M N : ℤ) (rm rn : TriRow)
    (hm : queryRows df (min Ar Br) (max Ar Br) M = [rm])
    (hn : queryRows df (min Ar Br) (max Ar Br) N = [rn]) :
    rowsForConfig df (Ar, Br, M, N) = Except.ok [mkQuad rm rn] := by
  unfold rowsForConfig
  dsimp only
  rw [hm, hn]
  simp

/-- Claim C4: for every configuration `(Ar, Br, M, N)` whose two selections
are the single tripole rows `rm` (for `P = M`) and `rn` (for `P = N`),
`compute_quadrupoles` emits a quadrupole row with `Zt = rm.Zt - rn.Zt`,
`r = sign(Re Zt) * |Zt|`, `Vmn = r * Iab`, `rpha = arctan2(Im Zt, Re Zt) * 1000`,
`m = rm.p` and `n = rn.p`. -/
theorem compute_quadrupoles_superposition
    (df : List TriRow) (configs : List (ℤ × ℤ × ℤ × ℤ))
    (Ar Br M N : ℤ) (rm rn : TriRow) (rows : List QuadRow)
    (hcfg : (Ar, Br, M, N) ∈ configs)
    (hm : queryRows df (min Ar Br) (max Ar Br) M = [rm])
    (hn : queryRows df (min Ar Br) (max Ar Br) N = [rn])
    (hok : compute_quadrupoles df configs = Except.ok rows) :
    mkQuad rm rn ∈ rows ∧
    (mkQuad rm rn).Zt = (rm.Zt.1 - rn.Zt.1, rm.Zt.2 - rn.Zt.2) ∧
    (mkQuad rm rn).r =
      np_sign (rm.Zt.1 - rn.Zt.1) * np_abs (rm.Zt.1 - rn.Zt.1, rm.Zt.2 - rn.Zt.2) ∧
    (mkQuad rm rn).Vmn = (mkQuad rm rn).r * ((rm.Iab : ℚ) : ℝ) ∧
    (mkQuad rm rn).rpha = np_arctan2 (rm.Zt.2 - rn.Zt.2) (rm.Zt.1 - rn.Zt.1) * 1000 ∧
    (mkQuad rm rn).m = rm.p ∧ (mkQuad rm rn).n = rn.p :=
  ⟨compute_quadrupoles_mem df configs _ _ hcfg
      (rowsForConfig_singleton df Ar Br M N rm rn hm hn) rows hok _ (by simp),
    rfl, rfl, rfl, rfl, rfl, rfl⟩

/-! ### Concrete evaluation of the spec's superposition example -/

/-- The M-side tripole row of the spec's example: `Zt = 2 + 1j`. -/
def rmC4 : TriRow :=
  { A := 1, B := 2, P := 3, a := 1, b := 2, p := 3, datetime := 0, frequency := 1,
    Zg1 := 0, Zg2 := 0, Zg3 := 0, Is := 0, Il := 0, Zg := 0, Iab := 1, Zt := (2, 1) }

/-- The N-side tripole row of the spec's example: `Zt = 1 + 0j`. -/
def rnC4 : TriRow := { rmC4 with P := 4, p := 4, Zt := (1, 0) }

/-- The tripole table of the spec's example. -/
def dfC4 : List TriRow := [rmC4, rnC4]

/-- The configuration list of the spec's example. -/
def cfgsC4 : List (ℤ × ℤ × ℤ × ℤ) := [(1, 2, 3, 4)]

lemma np_sign_one : np_sign 1 = 1 := by
  unfold np_sign
  rw [Rat.cast_one, Real.sign_one]

lemma np_abs_one_one : np_abs (1, 1) = Real.sqrt 2 := by
  unfold np_abs
  rw [Complex.abs_apply, Complex.normSq_mk]
  norm_num

lemma arg_one_add_I : Complex.arg (1 + Complex.I) = Real.pi / 4 := by
  have hθ : Real.pi / 4 ∈ Set.Ioc (-Real.pi) Real.pi := by
    constructor
    · nlinarith [Real.pi_pos]
    · nlinarith [Real.pi_pos]
  have h := Complex.arg_mul_cos_add_sin_mul_I (r := Real.sqrt 2) (by positivity) hθ
  rw [← Complex.ofReal_cos, ← Complex.ofReal_sin,
    Real.cos_pi_div_four, Real.sin_pi_div_four] at h
  have hs : Real.sqrt 2 * (Real.sqrt 2 / 2) = 1 := by
    rw [← mul_div_assoc, Real.mul_self_sqrt (by norm_num : (0:ℝ) ≤ 2)]
    norm_num
  have h2 : ((Real.sqrt 2 : ℝ) : ℂ) *
      (((Real.sqrt 2 / 2 : ℝ) : ℂ) + ((Real.sqrt 2 / 2 : ℝ) : ℂ) * Complex.I)
      = 1 + Complex.I := by
    apply Complex.ext
    · simp [Complex.mul_re, hs]
    · simp [Complex.mul_im, hs]
  rw [h2] at h
  exact h

lemma np_arctan2_one_one : np_arctan2 1 1 = Real.pi / 4 := by
  unfold np_arctan2
  have h1 : (⟨((1:ℚ):ℝ), ((1:ℚ):ℝ)⟩ : ℂ) = 1 + Complex.I := by
    apply Complex.ext <;> simp
  rw [h1, arg_one_add_I]

lemma sqrt_two_gt : (1.41421 : ℝ) < Real.sqrt 2 := by
  rw [show (1.41421 : ℝ) < Real.sqrt 2 ↔ (1.41421 : ℝ) ^ 2 < 2 from
    Real.lt_sqrt (by norm_num)]
  norm_num

lemma sqrt_two_lt : Real.sqrt 2 < (1.41422 : ℝ) := by
  rw [Real.sqrt_lt' (by norm_num)]
  norm_num

/-- Witness for C4 at the spec's example: the emitted row has `Zt = 1 + 1j`,
`r = √2` (which lies in `(1.41421, 1.41422)`) and `rpha = 250·π`
(which lies in `(785.398, 785.399)`). -/
theorem compute_quadrupoles_superposition_witness :
    ∃ rows, compute_quadrupoles dfC4 cfgsC4 = Except.ok rows ∧
      mkQuad rmC4 rnC4 ∈ rows ∧
      (mkQuad rmC4 rnC4).Zt = (1, 1) ∧
      (mkQuad rmC4 rnC4).r = Real.sqrt 2 ∧
      (mkQuad rmC4 rnC4).rpha = 250 * Real.pi ∧
      (1.41421 : ℝ) < (mkQuad rmC4 rnC4).r ∧ (mkQuad rmC4 rnC4).r < (1.41422 : ℝ) ∧
      (785.398 : ℝ) < (mkQuad rmC4 rnC4).rpha ∧ (mkQuad rmC4 rnC4).rpha < (785.399 : ℝ) := by
  have hm : queryRows dfC4 (min 1 2) (max 1 2) 3 = [rmC4] := rfl
  have hn : queryRows dfC4 (min 1 2) (max 1 2) 4 = [rnC4] := rfl
  have hok : compute_quadrupoles dfC4 cfgsC4 = Except.ok [mkQuad rmC4 rnC4] := by
    rw [show cfgsC4 = [(1, 2, 3, 4)] from rfl, compute_quadrupoles_cons,
      rowsForConfig_singleton dfC4 1 2 3 4 rmC4 rnC4 hm hn]
    rfl
  obtain ⟨hmem, hZt, hr, hVmn, hrpha, -, -⟩ :=
    compute_quadrupoles_superposition dfC4 cfgsC4 1 2 3 4 rmC4 rnC4
      [mkQuad rmC4 rnC4] (by simp [cfgsC4]) hm hn hok
  have hZt' : (mkQuad rmC4 rnC4).Zt = ((1 : ℚ), (1 : ℚ)) := by
    rw [hZt]
    show ((2 : ℚ) - 1, (1 : ℚ) - 0) = ((1 : ℚ), (1 : ℚ))
    norm_num
  have hsub1 : rmC4.Zt.1 - rnC4.Zt.1 = (1 : ℚ) := by
    show (2 : ℚ) - 1 = 1
    norm_num
  have hsub2 : rmC4.Zt.2 - rnC4.Zt.2 = (1 : ℚ) := by
    show (1 : ℚ) - 0 = 1
    norm_num
  have hr' : (mkQuad rmC4 rnC4).r = Real.sqrt 2 := by
    rw [hr, hsub1, hsub2, np_sign_one, np_abs_one_one, one_mul]
  have hrpha' : (mkQuad rmC4 rnC4).rpha = 250 * Real.pi := by
    rw [hrpha, hsub1, hsub2, np_arctan2_one_one]
    ring
  refine ⟨[mkQuad rmC4 rnC4], hok, hmem, hZt', hr', hrpha', ?_, ?_, ?_, ?_⟩
  · rw [hr']
    exact sqrt_two_gt
  · rw [hr']
    exact sqrt_two_lt
  · rw [hrpha']
    nlinarith [Real.pi_gt_d6]
  · rw [hrpha']
    nlinarith [Real.pi_lt_d6]

/-! ### Claim C6: missing-data tolerance and row counting -/

/-- Whether both the M-side and the N-side selections of a configuration are
nonempty (`query_M.size != 0 and query_N.size != 0`). -/
def bothPresent (df : List TriRow) (cfg : ℤ × ℤ × ℤ × ℤ) : Bool :=
  !(queryRows df (min cfg.1 cfg.2.1) (max cfg.1 cfg.2.1) cfg.2.2.1).isEmpty &&
  !(queryRows df (min cfg.1 cfg.2.1) (max cfg.1 cfg.2.1) cfg.2.2.2).isEmpty

/-- The number of output rows one configuration contributes: the number of
matching M-side tripole rows when both sides are present (the emitted frame
`df4` has `query_M`'s index), zero otherwise. -/
def mCount (df : List TriRow) (cfg : ℤ × ℤ × ℤ × ℤ) : Nat :=
  if bothPresent df cfg then
    (queryRows df (min cfg.1 cfg.2.1) (max cfg.1 cfg.2.1) cfg.2.2.1).length
  else 0

/-- Length compatibility of one configuration: when both sides are present,
the two selections have equal length (unequal lengths make the subtraction
or the `df4['n']` column assignment raise a `ValueError`). -/
def lenOk (df : List TriRow) (cfg : ℤ × ℤ × ℤ × ℤ) : Prop :=
  bothPresent df cfg = true →
    (queryRows df (min cfg.1 cfg.2.1) (max cfg.1 cfg.2.1) cfg.2.2.1).length =
      (queryRows df (min cfg.1 cfg.2.1) (max cfg.1 cfg.2.1) cfg.2.2.2).length

instance (df : List TriRow) (cfg : ℤ × ℤ × ℤ × ℤ) : Decidable (lenOk df cfg) := by
  unfold lenOk
  infer_instance

/-- A length-compatible configuration contributes exactly `mCount` rows and
never an error; in particular a configuration with a missing side
contributes the empty list. -/
lemma rowsForConfig_count (df : List TriRow) (cfg : ℤ × ℤ × ℤ × ℤ)
    (h : lenOk df cfg) :
    ∃ l, rowsForConfig df cfg = Except.ok l ∧ l.length = mCount df cfg := by
  unfold lenOk bothPresent at h
  unfold rowsForConfig mCount bothPresent
  dsimp only
  cases hM : (queryRows df (min cfg.1 cfg.2.1) (max cfg.1 cfg.2.1) cfg.2.2.1).isEmpty with
  | true => exact ⟨[], by simp, by simp⟩
  | false =>
    cases hN : (queryRows df (min cfg.1 cfg.2.1) (max cfg.1 cfg.2.1) cfg.2.2.2).isEmpty with
    | true => exact ⟨[], by simp, by simp⟩
    | false =>
      rw [hM, hN] at h
      simp only [Bool.not_false, Bool.and_self, forall_const] at h
      refine ⟨List.zipWith mkQuad
          (queryRows df (min cfg.1 cfg.2.1) (max cfg.1 cfg.2.1) cfg.2.2.1)
          (queryRows df (min cfg.1 cfg.2.1) (max cfg.1 cfg.2.1) cfg.2.2.2), ?_, ?_⟩
      · rw [if_neg (by simp), if_pos h]
      · simp [List.length_zipWith, h]

/-- Claim C6 (amended): when every configuration with both sides present
selects equally many M-side and N-side rows, the whole run succeeds; a
configuration with a missing `M` or `N` side contributes no row and no
error, the output row count is the sum over configurations with both sides
present of their M-side selection size (which equals the number of such
configurations exactly when every selection is a single row), and if no
configuration has both sides present the result is the empty table. -/
theorem compute_quadrupoles_tolerance (df : List TriRow)
    (configs : List (ℤ × ℤ × ℤ × ℤ))
    (h : ∀ cfg ∈ configs, lenOk df cfg) :
    ∃ rows, compute_quadrupoles df configs = Except.ok rows ∧
      rows.length = (configs.map (mCount df)).sum ∧
      ((∀ cfg ∈ configs, bothPresent df cfg = false) → rows = []) := by
  induction configs with
  | nil => exact ⟨[], rfl, rfl, fun _ => rfl⟩
  | cons c rest ih =>
    obtain ⟨l, hl, hlen⟩ := rowsForConfig_count df c (h c (by simp))
    obtain ⟨ls, hls, hlslen, hlsnil⟩ := ih (fun cfg hc => h cfg (by simp [hc]))
    refine ⟨l ++ ls, ?_, ?_, ?_⟩
    · rw [compute_quadrupoles_cons, hl, exceptBind_ok, hls, exceptBind_ok]
    · simp [hlen, hlslen]
    · intro hnone
      have hc0 : bothPresent df c = false := hnone c (by simp)
      have hl0 : l = [] := by
        have hm0 : mCount df c = 0 := by simp [mCount, hc0]
        exact List.length_eq_zero.mp (hlen.trans hm0)
      have hls0 : ls = [] := hlsnil (fun cfg hc => hnone cfg (by simp [hc]))
      simp [hl0, hls0]

/-- Tripole rows at two frequencies for the C6 counterexample. -/
def rmC6b : TriRow := { rmC4 with frequency := 2 }

/-- The N-side row at the second frequency. -/
def rnC6b : TriRow := { rnC4 with frequency := 2 }

/-- A tripole table holding the `(1,2)` current pair at two frequencies. -/
def dfC6 : List TriRow := [rmC4, rmC6b, rnC4, rnC6b]

/-- A single configuration for the C6 counterexample. -/
def cfgsC6 : List (ℤ × ℤ × ℤ × ℤ) := [(1, 2, 3, 4)]

/-- Claim C6 counterexample: with the `(1,2)` pair measured at two
frequencies, the single configuration `(1,2,3,4)` has both sides present
(count 1), but the output holds one row per matching M-side tripole row,
i.e. 2 rows - the output row count is not the number of configurations with
both sides present. -/
theorem compute_quadrupoles_rowcount_cex :
    (compute_quadrupoles dfC6 cfgsC6).map List.length = Except.ok 2 ∧
    cfgsC6.countP (fun cfg => bothPresent dfC6 cfg) = 1 ∧
    (compute_quadrupoles dfC6 cfgsC6).map List.length ≠
      Except.ok (cfgsC6.countP (fun cfg => bothPresent dfC6 cfg)) := by
  refine ⟨rfl, rfl, ?_⟩
  intro hcontra
  rw [show (compute_quadrupoles dfC6 cfgsC6).map List.length = Except.ok 2 from rfl] at hcontra
  rw [show cfgsC6.countP (fun cfg => bothPresent dfC6 cfg) = 1 from rfl] at hcontra
  have h21 := Except.ok.inj hcontra
  omega

/-- Configurations for the C6 witness: one with both sides present as single
rows, one whose electrodes were never measured. -/
def cfgsW6 : List (ℤ × ℤ × ℤ × ℤ) := [(1, 2, 3, 4), (1, 2, 5, 6)]

/-- Witness for C6's amended theorem: on the singleton-selection table
`dfC4`, the present configuration contributes one row, the missing one
contributes nothing and raises nothing. -/
theorem compute_quadrupoles_tolerance_witness :
    ∃ rows, compute_quadrupoles dfC4 cfgsW6 = Except.ok rows ∧
      rows.length = (cfgsW6.map (mCount dfC4)).sum ∧
      ((∀ cfg ∈ cfgsW6, bothPresent dfC4 cfg = false) → rows = []) :=
  compute_quadrupoles_tolerance dfC4 cfgsW6 (by decide)
